import Mathlib

/-!
Verification of the semantic-retrieval subsystem of the memos note service.

The definitions below are a shallow embedding of the Go source under
`server/router/api/v1` (semantic search, embedding client, reindex
orchestrator) and `store/memo_embedding.go`.  Go `float64` values are
modelled as real numbers, Go `int32`/`int64` as `Int`, fallible calls as
`Except`/`Option`, and the external collaborators (note store, settings
store, HTTP transport) as explicit inputs.
-/

open Classical

namespace MemosSemantic

/-- Memo visibility classes (store.Visibility). -/
inductive Visibility
  | publicVis
  | protectedVis
  | privateVis
deriving DecidableEq, Repr

/-- The fields of store.Memo that the semantic-search pipeline reads:
identifier, creator, last-update timestamp, visibility and raw content. -/
structure Memo where
  id : Int
  creatorId : Int
  updatedTs : Int
  visibility : Visibility
  content : String
deriving DecidableEq, Repr

/-- Squared-norm accumulator of the Go loop in `cosineSimilarity`
(`normA += a[i]*a[i]`). -/
def sumSq (a : List ℝ) : ℝ := (a.map (fun x => x * x)).sum

/-- Dot-product accumulator of the Go loop in `cosineSimilarity`
(`dotProduct += a[i]*b[i]`). -/
def dotList (a b : List ℝ) : ℝ := (List.zipWith (fun x y => x * y) a b).sum

/-- `cosineSimilarity` from memo_semantic_service.go: returns `none`
(the Go `(0, false)`) when either vector is empty, the lengths differ,
or either vector has zero squared norm; otherwise
`dot(a,b) / (sqrt(normA) * sqrt(normB))`. -/
noncomputable def cosineSimilarity (a b : List ℝ) : Option ℝ :=
  if a.length = 0 ∨ b.length = 0 ∨ a.length ≠ b.length then
    none
  else if sumSq a = 0 ∨ sumSq b = 0 then
    none
  else
    some (dotList a b / (Real.sqrt (sumSq a) * Real.sqrt (sumSq b)))

lemma sumSq_nonneg (a : List ℝ) : 0 ≤ sumSq a := by
  unfold sumSq
  induction a with
  | nil => simp
  | cons x t ih =>
    simp only [List.map_cons, List.sum_cons]
    have := mul_self_nonneg x
    linarith

lemma sumSq_pos (a : List ℝ) (h : ∃ x ∈ a, x ≠ 0) : 0 < sumSq a := by
  induction a with
  | nil => simp at h
  | cons y t ih =>
    unfold sumSq
    simp only [List.map_cons, List.sum_cons]
    rcases h with ⟨x, hx, hx0⟩
    rcases List.mem_cons.mp hx with rfl | hxt
    · have h1 : 0 < x * x := mul_self_pos.mpr hx0
      have h3 : 0 ≤ sumSq t := sumSq_nonneg t
      unfold sumSq at h3
      linarith
    · have h2 : 0 < sumSq t := ih ⟨x, hxt, hx0⟩
      have h3 := mul_self_nonneg y
      unfold sumSq at h2
      linarith

lemma dotList_eq_range (a : List ℝ) : ∀ b : List ℝ, a.length = b.length →
    dotList a b = ∑ i ∈ Finset.range a.length, a.getD i 0 * b.getD i 0 := by
  induction a with
  | nil =>
    intro b h
    simp [dotList]
  | cons x t ih =>
    intro b h
    cases b with
    | nil => simp at h
    | cons y u =>
      simp only [List.length_cons, Nat.succ.injEq] at h
      unfold dotList
      simp only [List.zipWith_cons_cons, List.sum_cons, List.length_cons]
      rw [Finset.sum_range_succ']
      simp only [List.getD_cons_succ, List.getD_cons_zero]
      have ihu := ih u h
      unfold dotList at ihu
      rw [ihu]
      ring

lemma dotList_self (a : List ℝ) : dotList a a = sumSq a := by
  induction a with
  | nil => rfl
  | cons x t ih =>
    unfold dotList sumSq at *
    simp only [List.zipWith_cons_cons, List.map_cons, List.sum_cons]
    rw [ih]

lemma sumSq_eq_range (a : List ℝ) :
    sumSq a = ∑ i ∈ Finset.range a.length, a.getD i 0 ^ 2 := by
  rw [← dotList_self, dotList_eq_range a a rfl]
  exact Finset.sum_congr rfl fun i _ => (sq (a.getD i 0)).symm

lemma abs_dotList_le (a b : List ℝ) (h : a.length = b.length) :
    |dotList a b| ≤ Real.sqrt (sumSq a) * Real.sqrt (sumSq b) := by
  have ha := sumSq_eq_range a
  have hb : sumSq b = ∑ i ∈ Finset.range a.length, b.getD i 0 ^ 2 := by
    rw [sumSq_eq_range b, h]
  have hupper : dotList a b ≤ Real.sqrt (sumSq a) * Real.sqrt (sumSq b) := by
    rw [dotList_eq_range a b h, ha, hb]
    exact Real.sum_mul_le_sqrt_mul_sqrt _ _ _
  have hlower : -dotList a b ≤ Real.sqrt (sumSq a) * Real.sqrt (sumSq b) := by
    have hneg := Real.sum_mul_le_sqrt_mul_sqrt (Finset.range a.length)
      (fun i => a.getD i 0) (fun i => -b.getD i 0)
    simp only [mul_neg, Finset.sum_neg_distrib, neg_sq] at hneg
    rw [dotList_eq_range a b h, ha, hb]
    exact hneg
  exact abs_le.mpr ⟨by linarith, hupper⟩

lemma dotList_comm (a b : List ℝ) : dotList a b = dotList b a := by
  unfold dotList
  rw [List.zipWith_comm_of_comm _ mul_comm]

lemma cosineSimilarity_comm (a b : List ℝ) :
    cosineSimilarity a b = cosineSimilarity b a := by
  unfold cosineSimilarity
  split_ifs <;> first
    | rfl
    | (exfalso; tauto)
    | (rw [dotList_comm, mul_comm])

lemma cosineSimilarity_eq_some (a b : List ℝ)
    (hlen : a.length = b.length) (hne : a.length ≠ 0)
    (hna : sumSq a ≠ 0) (hnb : sumSq b ≠ 0) :
    cosineSimilarity a b
      = some (dotList a b / (Real.sqrt (sumSq a) * Real.sqrt (sumSq b))) := by
  unfold cosineSimilarity
  rw [if_neg, if_neg]
  · tauto
  · omega

/-- C8: `cosineSimilarity` computes `dot(a,b) / (||a|| * ||b||)`; it is
commutative, it is bounded in `[-1, 1]` for nonzero vectors of equal length,
and it yields no score (rather than an error) for a vector of zero magnitude
or for vectors of mismatched dimension. -/
theorem cosineSimilarity_spec (a b : List ℝ)
    (hlen : a.length = b.length)
    (ha : ∃ x ∈ a, x ≠ 0) (hb : ∃ x ∈ b, x ≠ 0) :
    cosineSimilarity a b = cosineSimilarity b a ∧
    (∃ r, cosineSimilarity a b = some r ∧ -1 ≤ r ∧ r ≤ 1) ∧
    (∀ c d : List ℝ, c.length ≠ d.length → cosineSimilarity c d = none) ∧
    (∀ c d : List ℝ, sumSq d = 0 → cosineSimilarity c d = none) := by
  have hApos : 0 < sumSq a := sumSq_pos a ha
  have hBpos : 0 < sumSq b := sumSq_pos b hb
  have hne : a.length ≠ 0 := by
    rcases ha with ⟨x, hx, _⟩
    have : a ≠ [] := List.ne_nil_of_mem hx
    simpa [List.length_eq_zero] using this
  refine ⟨cosineSimilarity_comm a b, ?_, ?_, ?_⟩
  · refine ⟨dotList a b / (Real.sqrt (sumSq a) * Real.sqrt (sumSq b)),
      cosineSimilarity_eq_some a b hlen hne (ne_of_gt hApos) (ne_of_gt hBpos), ?_, ?_⟩
    · have hD : 0 < Real.sqrt (sumSq a) * Real.sqrt (sumSq b) :=
        mul_pos (Real.sqrt_pos.mpr hApos) (Real.sqrt_pos.mpr hBpos)
      have h1 := (abs_le.mp (abs_dotList_le a b hlen)).1
      rw [le_div_iff₀ hD]
      linarith
    · have hD : 0 < Real.sqrt (sumSq a) * Real.sqrt (sumSq b) :=
        mul_pos (Real.sqrt_pos.mpr hApos) (Real.sqrt_pos.mpr hBpos)
      have h1 := (abs_le.mp (abs_dotList_le a b hlen)).2
      rw [div_le_iff₀ hD]
      linarith
  · intro c d hcd
    unfold cosineSimilarity
    rw [if_pos]
    tauto
  · intro c d hd
    unfold cosineSimilarity
    by_cases hguard : c.length = 0 ∨ d.length = 0 ∨ c.length ≠ d.length
    · rw [if_pos hguard]
    · rw [if_neg hguard, if_pos]
      right
      exact hd

/-- Closed witness for `cosineSimilarity_spec` at the vectors
`[1, 0]` and `[1/2, 1/2]`. -/
theorem cosineSimilarity_spec_witness :
    ∃ r, cosineSimilarity [(1 : ℝ), 0] [(1 : ℝ) / 2, 1 / 2] = some r ∧
      -1 ≤ r ∧ r ≤ 1 :=
  (cosineSimilarity_spec [(1 : ℝ), 0] [(1 : ℝ) / 2, 1 / 2]
    (by simp)
    (by exact ⟨1, by simp, one_ne_zero⟩)
    (by refine ⟨1 / 2, by simp, by norm_num⟩)).2.1

/-- One entry of the `scoredMemos` slice built by `SearchMemosSemantic`. -/
structure ScoredMemo where
  memo : Memo
  score : ℝ

/-- The `less` comparator passed to `sort.Slice` in `SearchMemosSemantic`
(memo_semantic_service.go lines 106-114): higher score first, then more
recently updated, then higher memo id. -/
def semanticBefore (a b : ScoredMemo) : Prop :=
  if a.score = b.score then
    if a.memo.updatedTs = b.memo.updatedTs then a.memo.id > b.memo.id
    else a.memo.updatedTs > b.memo.updatedTs
  else a.score > b.score

/-- The (non-strict) order in which `sort.Slice` leaves the slice: for
`i < j` the comparator reports `!less(j, i)`. -/
def semanticLE (a b : ScoredMemo) : Prop := ¬ semanticBefore b a

lemma semanticLE_iff (a b : ScoredMemo) :
    semanticLE a b ↔
      b.score < a.score ∨
        (b.score = a.score ∧
          (b.memo.updatedTs < a.memo.updatedTs ∨
            (b.memo.updatedTs = a.memo.updatedTs ∧ b.memo.id ≤ a.memo.id))) := by
  unfold semanticLE semanticBefore
  by_cases h1 : b.score = a.score
  · rw [if_pos h1]
    by_cases h2 : b.memo.updatedTs = a.memo.updatedTs
    · rw [if_pos h2]
      constructor
      · intro h
        exact Or.inr ⟨h1, Or.inr ⟨h2, by omega⟩⟩
      · rintro (h | ⟨-, (h | ⟨-, h⟩)⟩)
        · rw [h1] at h
          exact absurd h (lt_irrefl _)
        · omega
        · omega
    · rw [if_neg h2]
      constructor
      · intro h
        refine Or.inr ⟨h1, Or.inl ?_⟩
        omega
      · rintro (h | ⟨-, (h | ⟨he, -⟩)⟩)
        · rw [h1] at h
          exact absurd h (lt_irrefl _)
        · omega
        · exact absurd he h2
  · rw [if_neg h1]
    constructor
    · intro h
      left
      rcases lt_trichotomy b.score a.score with hlt | heq | hgt
      · exact hlt
      · exact absurd heq h1
      · exact absurd hgt h
    · rintro (h | ⟨he, -⟩)
      · exact not_lt_of_gt h
      · exact absurd he h1

lemma semanticLE_total (a b : ScoredMemo) : semanticLE a b ∨ semanticLE b a := by
  rw [semanticLE_iff, semanticLE_iff]
  rcases lt_trichotomy a.score b.score with hs | hs | hs
  · exact Or.inr (Or.inl hs)
  · rcases lt_trichotomy a.memo.updatedTs b.memo.updatedTs with ht | ht | ht
    · exact Or.inr (Or.inr ⟨hs, Or.inl ht⟩)
    · rcases le_total a.memo.id b.memo.id with hi | hi
      · exact Or.inr (Or.inr ⟨hs, Or.inr ⟨ht, hi⟩⟩)
      · exact Or.inl (Or.inr ⟨hs.symm, Or.inr ⟨ht.symm, hi⟩⟩)
    · exact Or.inl (Or.inr ⟨hs.symm, Or.inl ht⟩)
  · exact Or.inl (Or.inl hs)

lemma semanticLE_trans (a b c : ScoredMemo) :
    semanticLE a b → semanticLE b c → semanticLE a c := by
  rw [semanticLE_iff, semanticLE_iff, semanticLE_iff]
  rintro (h1 | ⟨h1e, h1r⟩) (h2 | ⟨h2e, h2r⟩)
  · exact Or.inl (lt_trans h2 h1)
  · exact Or.inl (h2e ▸ h1)
  · exact Or.inl (h1e ▸ h2)
  · refine Or.inr ⟨h2e.trans h1e, ?_⟩
    rcases h1r with h1t | ⟨h1te, h1i⟩ <;> rcases h2r with h2t | ⟨h2te, h2i⟩
    · exact Or.inl (lt_trans h2t h1t)
    · exact Or.inl (h2te ▸ h1t)
    · exact Or.inl (h1te ▸ h2t)
    · exact Or.inr ⟨h2te.trans h1te, le_trans h2i h1i⟩

instance : IsTotal ScoredMemo semanticLE := ⟨semanticLE_total⟩

instance : IsTrans ScoredMemo semanticLE := ⟨semanticLE_trans⟩

lemma semanticLE_antisymm_keys (a b : ScoredMemo)
    (hab : semanticLE a b) (hba : semanticLE b a) :
    a.score = b.score ∧ a.memo.updatedTs = b.memo.updatedTs ∧
      a.memo.id = b.memo.id := by
  rw [semanticLE_iff] at hab hba
  rcases hab with h1 | ⟨h1e, h1r⟩ <;> rcases hba with h2 | ⟨h2e, h2r⟩
  · exact absurd h1 (not_lt_of_gt h2)
  · exact absurd h1 (h2e ▸ lt_irrefl _)
  · exact absurd h2 (h1e ▸ lt_irrefl _)
  · refine ⟨h1e.symm, ?_⟩
    rcases h1r with h1t | ⟨h1te, h1i⟩ <;> rcases h2r with h2t | ⟨h2te, h2i⟩
    · exact absurd h1t (not_lt_of_gt h2t)
    · exact absurd h1t (h2te ▸ lt_irrefl _)
    · exact absurd h2t (h1te ▸ lt_irrefl _)
    · exact ⟨h1te.symm, le_antisymm h2i h1i⟩

/-- The `sort.Slice` step of `SearchMemosSemantic`, as a sort with respect
to the comparator's non-strict closure. -/
noncomputable def rankScoredMemos (l : List ScoredMemo) : List ScoredMemo :=
  List.insertionSort semanticLE l

/-- One iteration of the candidate-scoring loop of `SearchMemosSemantic`
(lines 84-98): look up the candidate's stored embedding, skip it when
absent (`continue`), score it with `cosineSimilarity`, skip it when no
score is produced. -/
noncomputable def scoreOne (queryEmbedding : List ℝ)
    (embeddingMap : Int → Option (List ℝ)) (memo : Memo) : Option ScoredMemo :=
  match embeddingMap memo.id with
  | none => none
  | some embedding =>
    match cosineSimilarity queryEmbedding embedding with
    | none => none
    | some score => some ⟨memo, score⟩

/-- The candidate-scoring loop of `SearchMemosSemantic`, iterated in order
over the candidate memos. -/
noncomputable def scoreCandidates (queryEmbedding : List ℝ) (memos : List Memo)
    (embeddingMap : Int → Option (List ℝ)) : List ScoredMemo :=
  memos.filterMap (scoreOne queryEmbedding embeddingMap)

lemma scoreOne_memo {queryEmbedding : List ℝ}
    {embeddingMap : Int → Option (List ℝ)} {m : Memo} {s : ScoredMemo}
    (h : scoreOne queryEmbedding embeddingMap m = some s) : s.memo = m := by
  unfold scoreOne at h
  cases he : embeddingMap m.id with
  | none =>
    rw [he] at h
    exact absurd h (by simp)
  | some e =>
    rw [he] at h
    dsimp only at h
    cases hc : cosineSimilarity queryEmbedding e with
    | none =>
      rw [hc] at h
      exact absurd h (by simp)
    | some sc =>
      rw [hc] at h
      dsimp only at h
      simp only [Option.some.injEq] at h
      rw [← h]

lemma perm_eq_of_sorted_of_antisymm_on {α : Type} {r : α → α → Prop} :
    ∀ {l₁ l₂ : List α}, l₁.Perm l₂ → l₁.Sorted r → l₂.Sorted r →
      (∀ a ∈ l₁, ∀ b ∈ l₁, r a b → r b a → a = b) → l₁ = l₂ := by
  intro l₁
  induction l₁ with
  | nil =>
    intro l₂ hp _ _ _
    exact (hp.symm.eq_nil).symm
  | cons a t ih =>
    intro l₂ hp hs₁ hs₂ hanti
    cases l₂ with
    | nil => simpa using hp.eq_nil
    | cons b u =>
      have hab : a = b := by
        by_cases h : a = b
        · exact h
        · have hbmem : b ∈ a :: t := hp.symm.subset (List.mem_cons_self b u)
          have hamem : a ∈ b :: u := hp.subset (List.mem_cons_self a t)
          have hbt : b ∈ t := by
            rcases List.mem_cons.mp hbmem with h' | h'
            · exact absurd h'.symm h
            · exact h'
          have hau : a ∈ u := by
            rcases List.mem_cons.mp hamem with h' | h'
            · exact absurd h' h
            · exact h'
          have h1 : r a b := List.rel_of_sorted_cons hs₁ b hbt
          have h2 : r b a := List.rel_of_sorted_cons hs₂ a hau
          exact hanti a (List.mem_cons_self a t) b hbmem h1 h2
      subst hab
      have hp' : t.Perm u := hp.cons_inv
      have hrec := ih hp' hs₁.of_cons hs₂.of_cons
        (fun x hx y hy => hanti x (List.mem_cons_of_mem _ hx)
          y (List.mem_cons_of_mem _ hy))
      rw [hrec]

lemma scoreCandidates_map_id_sublist (queryEmbedding : List ℝ)
    (memos : List Memo) (embeddingMap : Int → Option (List ℝ)) :
    ((scoreCandidates queryEmbedding memos embeddingMap).map
        fun s => s.memo.id).Sublist (memos.map Memo.id) := by
  induction memos with
  | nil => simp [scoreCandidates]
  | cons m rest ih =>
    unfold scoreCandidates at *
    simp only [List.filterMap_cons, List.map_cons]
    cases hone : scoreOne queryEmbedding embeddingMap m with
    | none => exact ih.cons _
    | some s =>
      simp only [List.map_cons]
      have hsm : s.memo.id = m.id := by rw [scoreOne_memo hone]
      rw [hsm]
      exact ih.cons₂ _

/-- C1: for a fixed candidate set (with pairwise-distinct memo ids) and a
fixed query vector, the `SearchMemosSemantic` ranking step orders the scored
candidates descending by cosine-similarity score, breaking score ties by
more recent `updatedTs` and timestamp ties by higher memo id; the resulting
order is a permutation of the scored candidates, and it is the unique list
with these properties, so repeated calls with the same arguments produce
the identical ordering (and hence identical page tokens). -/
theorem searchRanking_deterministic (queryEmbedding : List ℝ)
    (memos : List Memo) (embeddingMap : Int → Option (List ℝ))
    (hids : (memos.map Memo.id).Nodup) :
    (rankScoredMemos (scoreCandidates queryEmbedding memos embeddingMap)).Sorted
        semanticLE ∧
    (rankScoredMemos (scoreCandidates queryEmbedding memos embeddingMap)).Perm
        (scoreCandidates queryEmbedding memos embeddingMap) ∧
    ∀ l' : List ScoredMemo,
      l'.Perm (scoreCandidates queryEmbedding memos embeddingMap) →
      l'.Sorted semanticLE →
      l' = rankScoredMemos (scoreCandidates queryEmbedding memos embeddingMap) := by
  have hsorted : (rankScoredMemos
      (scoreCandidates queryEmbedding memos embeddingMap)).Sorted semanticLE :=
    List.sorted_insertionSort semanticLE _
  have hperm : (rankScoredMemos
      (scoreCandidates queryEmbedding memos embeddingMap)).Perm
        (scoreCandidates queryEmbedding memos embeddingMap) :=
    List.perm_insertionSort semanticLE _
  have hscoredIds : ((scoreCandidates queryEmbedding memos embeddingMap).map
      fun s => s.memo.id).Nodup :=
    (scoreCandidates_map_id_sublist queryEmbedding memos embeddingMap).nodup hids
  have hinj := List.inj_on_of_nodup_map hscoredIds
  refine ⟨hsorted, hperm, ?_⟩
  intro l' hp' hs'
  refine perm_eq_of_sorted_of_antisymm_on (hp'.trans hperm.symm) hs' hsorted ?_
  intro x hx y hy hxy hyx
  have hxs : x ∈ scoreCandidates queryEmbedding memos embeddingMap :=
    hp'.subset hx
  have hys : y ∈ scoreCandidates queryEmbedding memos embeddingMap :=
    hp'.subset hy
  have hkeys := semanticLE_antisymm_keys x y hxy hyx
  exact hinj hxs hys hkeys.2.2

/-- Closed witness for `searchRanking_deterministic` on a two-memo
candidate set. -/
theorem searchRanking_deterministic_witness :
    (rankScoredMemos (scoreCandidates [(1 : ℝ)]
        [⟨1, 1, 0, Visibility.publicVis, "a"⟩,
         ⟨2, 1, 0, Visibility.publicVis, "b"⟩]
        (fun _ => some [(1 : ℝ)]))).Sorted semanticLE ∧
    (rankScoredMemos (scoreCandidates [(1 : ℝ)]
        [⟨1, 1, 0, Visibility.publicVis, "a"⟩,
         ⟨2, 1, 0, Visibility.publicVis, "b"⟩]
        (fun _ => some [(1 : ℝ)]))).Perm
      (scoreCandidates [(1 : ℝ)]
        [⟨1, 1, 0, Visibility.publicVis, "a"⟩,
         ⟨2, 1, 0, Visibility.publicVis, "b"⟩]
        (fun _ => some [(1 : ℝ)])) ∧
    ∀ l' : List ScoredMemo,
      l'.Perm (scoreCandidates [(1 : ℝ)]
        [⟨1, 1, 0, Visibility.publicVis, "a"⟩,
         ⟨2, 1, 0, Visibility.publicVis, "b"⟩]
        (fun _ => some [(1 : ℝ)])) →
      l'.Sorted semanticLE →
      l' = rankScoredMemos (scoreCandidates [(1 : ℝ)]
        [⟨1, 1, 0, Visibility.publicVis, "a"⟩,
         ⟨2, 1, 0, Visibility.publicVis, "b"⟩]
        (fun _ => some [(1 : ℝ)])) :=
  searchRanking_deterministic [(1 : ℝ)]
    [⟨1, 1, 0, Visibility.publicVis, "a"⟩,
     ⟨2, 1, 0, Visibility.publicVis, "b"⟩]
    (fun _ => some [(1 : ℝ)]) (by simp)

/-- `DefaultPageSize` from the repository's shared API pagination code
(declared outside src/; value is the upstream memos constant). -/
def DefaultPageSize : Int := 10

/-- `MaxPageSize` from the repository's shared API pagination code
(declared outside src/; value is the upstream memos constant). -/
def MaxPageSize : Int := 1000

/-- The `(limit, offset)` pair carried by the opaque page token
(`v1pb.PageToken`).  Modelled from the spec: the token codec
(`getPageToken` / `unmarshalPageToken`) is not under src/; the spec states
the token opaquely encodes `(limit, offset)`, so the codec is modelled as
the identity on such pairs and a missing token as `none`. -/
structure PageToken where
  limit : Int
  offset : Int
deriving DecidableEq, Repr

/-- The two sequential limit-clamping ifs of `SearchMemosSemantic`
(lines 125-130): non-positive limits become `DefaultPageSize`, limits above
`MaxPageSize` become `MaxPageSize`. -/
def clampLimit (limit : Int) : Int :=
  if (if limit ≤ 0 then DefaultPageSize else limit) > MaxPageSize then
    MaxPageSize
  else
    if limit ≤ 0 then DefaultPageSize else limit

/-- The slicing-and-next-token step of `SearchMemosSemantic`
(lines 131-158) at an effective `(limit, offset)`: empty page and no token
once the offset reaches the end; otherwise the slice
`scoredMemos[offset:end]` with `end = min(offset+limit, len)` and a next
token `(limit, end)` exactly when `end < len`.  A negative offset models
the Go slice-bound panic as `none`. -/
def paginateAt (scoredMemos : List ScoredMemo) (limit offset : Int) :
    Option (List ScoredMemo × Option PageToken) :=
  if offset ≥ (scoredMemos.length : Int) then
    some ([], none)
  else if offset < 0 then
    none
  else
    some ((scoredMemos.drop offset.toNat).take
        (min (offset + limit) (scoredMemos.length : Int) - offset).toNat,
      if min (offset + limit) (scoredMemos.length : Int)
          < (scoredMemos.length : Int) then
        some ⟨limit, min (offset + limit) (scoredMemos.length : Int)⟩
      else
        none)

/-- The pagination step of `SearchMemosSemantic` (lines 116-158): the limit
and offset come from the page token when present, else from the request's
page size and zero, and the limit is clamped. -/
def paginateRanked (scoredMemos : List ScoredMemo) (pageSize : Int)
    (pageToken : Option PageToken) : Option (List ScoredMemo × Option PageToken) :=
  paginateAt scoredMemos
    (clampLimit (match pageToken with | none => pageSize | some t => t.limit))
    (match pageToken with | none => 0 | some t => t.offset)

/-- Follow `nextPageToken` until no further token is emitted, concatenating
the returned pages (the client-side iteration the spec's pagination
completeness property describes). -/
def collectPages (scoredMemos : List ScoredMemo) (pageSize : Int) :
    Nat → Option PageToken → Option (List ScoredMemo)
  | 0, _ => none
  | fuel + 1, tok =>
    match paginateRanked scoredMemos pageSize tok with
    | none => none
    | some (items, none) => some items
    | some (items, some t) =>
      match collectPages scoredMemos pageSize fuel (some t) with
      | none => none
      | some rest => some (items ++ rest)

lemma clampLimit_pos (x : Int) : 1 ≤ clampLimit x := by
  unfold clampLimit DefaultPageSize MaxPageSize
  split_ifs <;> omega

lemma clampLimit_le_max (x : Int) : clampLimit x ≤ MaxPageSize := by
  unfold clampLimit DefaultPageSize MaxPageSize
  split_ifs <;> omega

lemma clampLimit_eq_self {x : Int} (h1 : 1 ≤ x) (h2 : x ≤ MaxPageSize) :
    clampLimit x = x := by
  unfold clampLimit DefaultPageSize MaxPageSize at *
  split_ifs <;> omega

lemma paginateRanked_some_tok (scoredMemos : List ScoredMemo)
    (pageSize limit offset : Int) :
    paginateRanked scoredMemos pageSize (some ⟨limit, offset⟩)
      = paginateAt scoredMemos (clampLimit limit) offset := rfl

lemma paginateRanked_none_tok (scoredMemos : List ScoredMemo) (pageSize : Int) :
    paginateRanked scoredMemos pageSize none
      = paginateAt scoredMemos (clampLimit pageSize) 0 := rfl

lemma collectPages_succ (scoredMemos : List ScoredMemo) (pageSize : Int)
    (fuel : Nat) (tok : Option PageToken) :
    collectPages scoredMemos pageSize (fuel + 1) tok
      = match paginateRanked scoredMemos pageSize tok with
        | none => none
        | some (items, none) => some items
        | some (items, some t) =>
          match collectPages scoredMemos pageSize fuel (some t) with
          | none => none
          | some rest => some (items ++ rest) := rfl

lemma collectPages_from (scoredMemos : List ScoredMemo) (pageSize limit : Int)
    (h1 : 1 ≤ limit) (h2 : limit ≤ MaxPageSize) :
    ∀ (fuel : Nat) (offset : Int), 0 ≤ offset →
      scoredMemos.length ≤ offset.toNat + fuel →
      collectPages scoredMemos pageSize (fuel + 1) (some ⟨limit, offset⟩)
        = some (scoredMemos.drop offset.toNat) := by
  intro fuel
  induction fuel with
  | zero =>
    intro offset h0 hf
    rw [collectPages_succ, paginateRanked_some_tok, clampLimit_eq_self h1 h2]
    unfold paginateAt
    rw [if_pos (by omega : offset ≥ (scoredMemos.length : Int))]
    rw [List.drop_eq_nil_of_le (by omega)]
  | succ fuel ih =>
    intro offset h0 hf
    rw [collectPages_succ, paginateRanked_some_tok, clampLimit_eq_self h1 h2]
    unfold paginateAt
    by_cases hoff : offset ≥ (scoredMemos.length : Int)
    · rw [if_pos hoff, List.drop_eq_nil_of_le (by omega)]
    · rw [if_neg hoff, if_neg (by omega)]
      by_cases hend : min (offset + limit) (scoredMemos.length : Int)
          < (scoredMemos.length : Int)
      · rw [if_pos hend]
        dsimp only
        rw [ih (min (offset + limit) (scoredMemos.length : Int))
          (by omega) (by omega)]
        dsimp only
        congr 1
        have hdd : scoredMemos.drop
              (min (offset + limit) (scoredMemos.length : Int)).toNat
            = (scoredMemos.drop offset.toNat).drop
                (min (offset + limit) (scoredMemos.length : Int)
                  - offset).toNat := by
          rw [List.drop_drop]
          congr 1
          omega
        rw [hdd, List.take_append_drop]
      · rw [if_neg hend]
        dsimp only
        rw [List.take_of_length_le (by rw [List.length_drop]; omega)]

/-- C3: pagination applies the default page size when the requested size is
unset or non-positive, clamps it to the maximum page size, encodes
`(limit, offset)` in the next-page token, emits no token exactly when the
new offset reaches the end of the ranked list, and following
`nextPageToken` until empty concatenates to exactly the full ranked list in
order. -/
theorem pagination_spec (scoredMemos : List ScoredMemo) (pageSize : Int) :
    (pageSize ≤ 0 → clampLimit pageSize = DefaultPageSize) ∧
    (MaxPageSize < pageSize → clampLimit pageSize = MaxPageSize) ∧
    (paginateRanked scoredMemos pageSize none
      = paginateAt scoredMemos (clampLimit pageSize) 0) ∧
    (∀ limit offset : Int, 0 ≤ offset →
      paginateAt scoredMemos limit offset
        = if offset ≥ (scoredMemos.length : Int) then some ([], none)
          else some ((scoredMemos.drop offset.toNat).take
              (min (offset + limit) (scoredMemos.length : Int) - offset).toNat,
            if min (offset + limit) (scoredMemos.length : Int)
                < (scoredMemos.length : Int) then
              some ⟨limit, min (offset + limit) (scoredMemos.length : Int)⟩
            else none)) ∧
    (collectPages scoredMemos pageSize (scoredMemos.length + 1) none
      = some scoredMemos) := by
  refine ⟨?_, ?_, rfl, ?_, ?_⟩
  · intro h
    unfold clampLimit DefaultPageSize MaxPageSize
    split_ifs <;> omega
  · intro h
    unfold clampLimit DefaultPageSize MaxPageSize at *
    split_ifs <;> omega
  · intro limit offset h0
    unfold paginateAt
    by_cases hoff : offset ≥ (scoredMemos.length : Int)
    · rw [if_pos hoff, if_pos hoff]
    · rw [if_neg hoff, if_neg hoff, if_neg (by omega)]
  · cases hlen : scoredMemos.length with
    | zero =>
      have hnil : scoredMemos = [] := List.length_eq_zero.mp hlen
      subst hnil
      rfl
    | succ n =>
      rw [collectPages_succ, paginateRanked_none_tok]
      unfold paginateAt
      rw [if_neg (by omega : ¬ (0 : Int) ≥ (scoredMemos.length : Int)),
        if_neg (by omega)]
      have hclamp1 : 1 ≤ clampLimit pageSize := clampLimit_pos pageSize
      have hclamp2 : clampLimit pageSize ≤ MaxPageSize :=
        clampLimit_le_max pageSize
      by_cases hend : min ((0 : Int) + clampLimit pageSize)
          (scoredMemos.length : Int) < (scoredMemos.length : Int)
      · rw [if_pos hend]
        dsimp only
        have hrec := collectPages_from scoredMemos pageSize
          (clampLimit pageSize) hclamp1 hclamp2 n
          (min ((0 : Int) + clampLimit pageSize) (scoredMemos.length : Int))
          (by omega) (by omega)
        rw [hrec]
        dsimp only
        congr 1
        have hdd : scoredMemos.drop
              (min ((0 : Int) + clampLimit pageSize)
                (scoredMemos.length : Int)).toNat
            = (scoredMemos.drop (0 : Int).toNat).drop
                (min ((0 : Int) + clampLimit pageSize)
                  (scoredMemos.length : Int) - 0).toNat := by
          rw [List.drop_drop]
          congr 1
          omega
        rw [hdd, List.take_append_drop]
        rfl
      · rw [if_neg hend]
        dsimp only
        congr 1
        rw [List.take_of_length_le (by rw [List.length_drop]; omega)]
        rfl

/-- Closed witness for `pagination_spec` at a zero page size and a concrete
token. -/
theorem pagination_spec_witness :
    clampLimit 0 = DefaultPageSize ∧
    paginateAt [] 1 0 = some ([], none) := by
  refine ⟨(pagination_spec [] 0).1 (by norm_num), ?_⟩
  have h := (pagination_spec [] 0).2.2.2.1 1 0 (by norm_num)
  simpa using h

/-- ASCII whitespace, for the model of Go's `strings.TrimSpace`. -/
def isSpaceChar (c : Char) : Bool :=
  c = ' ' || c = '\t' || c = '\n' || c = '\r'

/-- Model of Go's `strings.TrimSpace`: strip leading and trailing
whitespace. -/
def trimSpace (s : String) : String :=
  ⟨((s.data.dropWhile isSpaceChar).reverse.dropWhile isSpaceChar).reverse⟩

/-- gRPC status classes produced by the semantic subsystem. -/
inductive ErrCode
  | invalidArgument
  | failedPrecondition
  | internal
  | alreadyExists
deriving DecidableEq, Repr

/-- The `page_token` string field of the request: empty, present but not
decodable by `unmarshalPageToken`, or decodable to a `(limit, offset)`
pair. -/
inductive TokenField
  | emptyTok
  | malformedTok
  | validTok (t : PageToken)
deriving DecidableEq, Repr

/-- The request fields of `SearchMemosSemanticRequest` that drive control
flow (the `state` field only selects the candidate row status and is
subsumed in the candidate list). -/
structure SearchRequest where
  query : String
  filter : String
  pageSize : Int
  pageToken : TokenField

/-- The external collaborators consulted by `SearchMemosSemantic`, as
explicit inputs: the storage-capability flag, provider-config resolution,
the query-embedding call, filter validation, and the visibility-filtered
candidate listing with its stored embeddings. -/
structure SearchEnv where
  storageEnabled : Bool
  clientConfig : Except String Unit
  embedQuery : Except String (List ℝ)
  filterValid : Bool
  candidates : List Memo
  embeddingMap : Int → Option (List ℝ)

/-- The `ListMemosResponse` fields the search fills in. -/
structure SearchResponse where
  memos : List Memo
  nextPageToken : Option PageToken
deriving DecidableEq, Repr

/-- Result of a search call: success, a gRPC error, or a Go panic (only
reachable through a decodable page token carrying a negative offset). -/
inductive SearchResult
  | ok (resp : SearchResponse)
  | err (code : ErrCode)
  | panics
deriving DecidableEq, Repr

/-- The control flow of `SearchMemosSemantic`
(memo_semantic_service.go lines 22-163), paired with whether the
query-embedding call was issued.  Checks happen in source order: blank
query, storage capability, provider config, query embedding, filter
validation, empty candidate set, empty scored set, then page-token
decoding and pagination. -/
noncomputable def searchMemosSemantic (env : SearchEnv) (req : SearchRequest) :
    SearchResult × Bool :=
  if trimSpace req.query = "" then
    (.err .invalidArgument, false)
  else if env.storageEnabled = false then
    (.err .failedPrecondition, false)
  else
    match env.clientConfig with
    | .error _ => (.err .failedPrecondition, false)
    | .ok _ =>
      match env.embedQuery with
      | .error _ => (.err .internal, true)
      | .ok queryEmbedding =>
        if req.filter ≠ "" ∧ env.filterValid = false then
          (.err .invalidArgument, true)
        else if env.candidates = [] then
          (.ok ⟨[], none⟩, true)
        else if scoreCandidates queryEmbedding env.candidates env.embeddingMap
            = [] then
          (.ok ⟨[], none⟩, true)
        else
          match req.pageToken with
          | .malformedTok => (.err .invalidArgument, true)
          | .emptyTok =>
            match paginateRanked (rankScoredMemos (scoreCandidates
                queryEmbedding env.candidates env.embeddingMap))
                req.pageSize none with
            | none => (.panics, true)
            | some (items, next) =>
              (.ok ⟨items.map (fun s => s.memo), next⟩, true)
          | .validTok t =>
            match paginateRanked (rankScoredMemos (scoreCandidates
                queryEmbedding env.candidates env.embeddingMap))
                req.pageSize (some t) with
            | none => (.panics, true)
            | some (items, next) =>
              (.ok ⟨items.map (fun s => s.memo), next⟩, true)

/-- The candidate predicate `applyMemoVisibilityFilter` establishes for the
semantic search path (no creator restriction,
memo_list_helpers.go lines 15-28): an anonymous caller sees only public
memos; a signed-in caller sees own memos plus public/protected ones. -/
def memoVisibleTo (currentUser : Option Int) (m : Memo) : Prop :=
  match currentUser with
  | none => m.visibility = Visibility.publicVis
  | some uid =>
    m.creatorId = uid ∨ m.visibility = Visibility.publicVis ∨
      m.visibility = Visibility.protectedVis

lemma mem_scoreCandidates {queryEmbedding : List ℝ} {cands : List Memo}
    {emb : Int → Option (List ℝ)} {s : ScoredMemo}
    (h : s ∈ scoreCandidates queryEmbedding cands emb) : s.memo ∈ cands := by
  unfold scoreCandidates at h
  rcases List.mem_filterMap.mp h with ⟨a, ha, hsome⟩
  rw [scoreOne_memo hsome]
  exact ha

lemma paginateAt_items_mem {l : List ScoredMemo} {limit offset : Int}
    {items : List ScoredMemo} {next : Option PageToken}
    (h : paginateAt l limit offset = some (items, next)) :
    ∀ x ∈ items, x ∈ l := by
  unfold paginateAt at h
  split_ifs at h
  · have hp := Option.some.inj h
    rw [Prod.ext_iff] at hp
    have hi := hp.1
    dsimp at hi
    rw [← hi]
    intro x hx
    simp at hx
  all_goals
    have hp := Option.some.inj h
    rw [Prod.ext_iff] at hp
    have hi := hp.1
    dsimp at hi
    rw [← hi]
    intro x hx
    exact List.mem_of_mem_drop (List.mem_of_mem_take hx)

/-- The memo list a caller observes from a search result (empty on error
or panic). -/
def searchResultMemos : SearchResult → List Memo
  | .ok resp => resp.memos
  | .err _ => []
  | .panics => []

lemma search_memos_subset_candidates (env : SearchEnv) (req : SearchRequest) :
    ∀ resp, (searchMemosSemantic env req).1 = SearchResult.ok resp →
      ∀ m ∈ resp.memos, m ∈ env.candidates := by
  intro resp hok m hmemos
  unfold searchMemosSemantic at hok
  by_cases h1 : trimSpace req.query = ""
  · rw [if_pos h1] at hok
    exact absurd hok (by simp)
  rw [if_neg h1] at hok
  by_cases h2 : env.storageEnabled = false
  · rw [if_pos h2] at hok
    exact absurd hok (by simp)
  rw [if_neg h2] at hok
  cases hcc : env.clientConfig with
  | error e =>
    rw [hcc] at hok
    exact absurd hok (by simp)
  | ok u =>
    rw [hcc] at hok
    dsimp only at hok
    cases hq : env.embedQuery with
    | error e =>
      rw [hq] at hok
      exact absurd hok (by simp)
    | ok queryEmbedding =>
      rw [hq] at hok
      dsimp only at hok
      by_cases h3 : req.filter ≠ "" ∧ env.filterValid = false
      · rw [if_pos h3] at hok
        exact absurd hok (by simp)
      rw [if_neg h3] at hok
      by_cases h4 : env.candidates = []
      · rw [if_pos h4] at hok
        dsimp only at hok
        have hresp : SearchResponse.mk [] none = resp :=
          SearchResult.ok.inj hok
        rw [← hresp] at hmemos
        simp at hmemos
      rw [if_neg h4] at hok
      by_cases h5 : scoreCandidates queryEmbedding env.candidates
          env.embeddingMap = []
      · rw [if_pos h5] at hok
        dsimp only at hok
        have hresp : SearchResponse.mk [] none = resp :=
          SearchResult.ok.inj hok
        rw [← hresp] at hmemos
        simp at hmemos
      rw [if_neg h5] at hok
      have hchain : ∀ (items : List ScoredMemo) (next : Option PageToken)
          (limit offset : Int),
          paginateAt (rankScoredMemos (scoreCandidates queryEmbedding
            env.candidates env.embeddingMap)) limit offset
              = some (items, next) →
          SearchResponse.mk (items.map fun s => s.memo) next = resp →
          m ∈ env.candidates := by
        intro items next limit offset hp hresp
        rw [← hresp] at hmemos
        simp only [List.mem_map] at hmemos
        rcases hmemos with ⟨s, hs, hsm⟩
        have hs2 : s ∈ rankScoredMemos (scoreCandidates queryEmbedding
            env.candidates env.embeddingMap) := paginateAt_items_mem hp s hs
        have hs3 : s ∈ scoreCandidates queryEmbedding env.candidates
            env.embeddingMap :=
          (List.perm_insertionSort semanticLE _).mem_iff.mp hs2
        have hs4 : s.memo ∈ env.candidates := mem_scoreCandidates hs3
        rw [hsm] at hs4
        exact hs4
      cases htok : req.pageToken with
      | malformedTok =>
        rw [htok] at hok
        exact absurd hok (by simp)
      | emptyTok =>
        rw [htok] at hok
        dsimp only at hok
        rw [paginateRanked_none_tok] at hok
        cases hp : paginateAt (rankScoredMemos (scoreCandidates queryEmbedding
            env.candidates env.embeddingMap)) (clampLimit req.pageSize) 0 with
        | none =>
          rw [hp] at hok
          exact absurd hok (by simp)
        | some pr =>
          rw [hp] at hok
          dsimp only at hok
          exact hchain pr.1 pr.2 (clampLimit req.pageSize) 0
            (by rw [hp]) (SearchResult.ok.inj hok)
      | validTok t =>
        rw [htok] at hok
        dsimp only at hok
        rw [paginateRanked_some_tok] at hok
        cases hp : paginateAt (rankScoredMemos (scoreCandidates queryEmbedding
            env.candidates env.embeddingMap)) (clampLimit t.limit) t.offset with
        | none =>
          rw [hp] at hok
          exact absurd hok (by simp)
        | some pr =>
          rw [hp] at hok
          dsimp only at hok
          exact hchain pr.1 pr.2 (clampLimit t.limit) t.offset
            (by rw [hp]) (SearchResult.ok.inj hok)

/-- C4: a memo owned by another user with private visibility never appears
in the caller's semantic search results (whatever its similarity score):
the store's candidate listing satisfies the visibility predicate for the
caller, and the search output only ever contains candidates. -/
theorem private_memo_isolation (env : SearchEnv) (req : SearchRequest)
    (A : Int) (m : Memo)
    (hcand : ∀ c ∈ env.candidates, memoVisibleTo (some A) c)
    (hvis : m.visibility = Visibility.privateVis)
    (hown : m.creatorId ≠ A) :
    m ∉ searchResultMemos (searchMemosSemantic env req).1 := by
  have hnotcand : m ∉ env.candidates := by
    intro hmem
    rcases hcand m hmem with h | h | h
    · exact hown h
    · rw [hvis] at h
      exact absurd h (by simp)
    · rw [hvis] at h
      exact absurd h (by simp)
  intro hmem
  cases hres : (searchMemosSemantic env req).1 with
  | ok resp =>
    rw [hres] at hmem
    exact hnotcand (search_memos_subset_candidates env req resp hres m hmem)
  | err c =>
    rw [hres] at hmem
    simp [searchResultMemos] at hmem
  | panics =>
    rw [hres] at hmem
    simp [searchResultMemos] at hmem

/-- Closed witness for `private_memo_isolation`: a private memo of user 2
is not returned to user 1 even when its vector matches the query exactly. -/
theorem private_memo_isolation_witness :
    (⟨99, 2, 0, Visibility.privateVis, "x"⟩ : Memo) ∉
      searchResultMemos (searchMemosSemantic
        ⟨true, Except.ok (), Except.ok [(1 : ℝ)],
          true, [⟨1, 1, 0, Visibility.publicVis, "a"⟩],
          fun _ => some [(1 : ℝ)]⟩
        ⟨"q", "", 10, TokenField.emptyTok⟩).1 :=
  private_memo_isolation
    ⟨true, Except.ok (), Except.ok [(1 : ℝ)],
      true, [⟨1, 1, 0, Visibility.publicVis, "a"⟩],
      fun _ => some [(1 : ℝ)]⟩
    ⟨"q", "", 10, TokenField.emptyTok⟩ 1
    ⟨99, 2, 0, Visibility.privateVis, "x"⟩
    (by
      intro c hc
      simp only [List.mem_singleton] at hc
      rw [hc]
      exact Or.inl rfl)
    rfl
    (by norm_num)

/-- C7 counterexample: with a non-blank query, a malformed page token and a
storage backend that does not support semantic storage, the call fails with
failed-precondition, not invalid-argument — refuting "fails with an
invalid-argument error if and only if the query text is blank or the page
token/filter is malformed" in the only-if-to-if direction. -/
theorem search_error_iff_counterexample :
    (searchMemosSemantic
        ⟨false, Except.ok (), Except.ok [], true, [], fun _ => none⟩
        ⟨"q", "", 10, TokenField.malformedTok⟩).1
      = SearchResult.err ErrCode.failedPrecondition ∧
    (⟨"q", "", 10, TokenField.malformedTok⟩ : SearchRequest).pageToken
      = TokenField.malformedTok ∧
    ¬ (searchMemosSemantic
        ⟨false, Except.ok (), Except.ok [], true, [], fun _ => none⟩
        ⟨"q", "", 10, TokenField.malformedTok⟩).1
      = SearchResult.err ErrCode.invalidArgument := by
  refine ⟨rfl, rfl, ?_⟩
  exact fun h => ErrCode.noConfusion (SearchResult.err.inj h)

/-- C7 (amended): invalid-argument is returned exactly for a blank query,
or — once the storage, provider-config and embedding steps have succeeded —
for a non-empty invalid filter, or (when the scored candidate set is
non-empty) a malformed page token; failed-precondition is returned exactly
when the query is non-blank and the backend is unsupported or the provider
config cannot be resolved, and then no embedding call has been issued;
internal is returned exactly when the query-embedding call itself fails. -/
theorem search_error_classification (env : SearchEnv) (req : SearchRequest) :
    ((searchMemosSemantic env req).1 = SearchResult.err ErrCode.invalidArgument ↔
      (trimSpace req.query = "" ∨
        (trimSpace req.query ≠ "" ∧ env.storageEnabled = true ∧
          env.clientConfig = Except.ok () ∧
          ∃ v, env.embedQuery = Except.ok v ∧
            ((req.filter ≠ "" ∧ env.filterValid = false) ∨
              (¬ (req.filter ≠ "" ∧ env.filterValid = false) ∧
                env.candidates ≠ [] ∧
                scoreCandidates v env.candidates env.embeddingMap ≠ [] ∧
                req.pageToken = TokenField.malformedTok))))) ∧
    ((searchMemosSemantic env req).1
        = SearchResult.err ErrCode.failedPrecondition ↔
      (trimSpace req.query ≠ "" ∧
        (env.storageEnabled = false ∨
          (env.storageEnabled = true ∧
            ∃ e, env.clientConfig = Except.error e)))) ∧
    ((searchMemosSemantic env req).1 = SearchResult.err ErrCode.internal ↔
      (trimSpace req.query ≠ "" ∧ env.storageEnabled = true ∧
        env.clientConfig = Except.ok () ∧
        ∃ e, env.embedQuery = Except.error e)) ∧
    ((searchMemosSemantic env req).1
        = SearchResult.err ErrCode.failedPrecondition →
      (searchMemosSemantic env req).2 = false) := by
  by_cases h1 : trimSpace req.query = ""
  · have hval : searchMemosSemantic env req
        = (SearchResult.err ErrCode.invalidArgument, false) := by
      unfold searchMemosSemantic
      rw [if_pos h1]
    rw [hval]
    refine ⟨?_, ?_, ?_, ?_⟩ <;> simp [h1]
  cases hstore : env.storageEnabled with
  | false =>
    have hval : searchMemosSemantic env req
        = (SearchResult.err ErrCode.failedPrecondition, false) := by
      unfold searchMemosSemantic
      rw [if_neg h1, if_pos (by rw [hstore])]
    rw [hval]
    refine ⟨?_, ?_, ?_, ?_⟩ <;> simp [h1, hstore]
  | true =>
    cases hcc : env.clientConfig with
    | error e =>
      have hval : searchMemosSemantic env req
          = (SearchResult.err ErrCode.failedPrecondition, false) := by
        unfold searchMemosSemantic
        rw [if_neg h1, if_neg (by rw [hstore]; simp), hcc]
      rw [hval]
      refine ⟨?_, ?_, ?_, ?_⟩ <;> simp [h1, hstore, hcc]
    | ok u =>
      cases hq : env.embedQuery with
      | error e =>
        have hval : searchMemosSemantic env req
            = (SearchResult.err ErrCode.internal, true) := by
          unfold searchMemosSemantic
          rw [if_neg h1, if_neg (by rw [hstore]; simp), hcc, hq]
        rw [hval]
        refine ⟨?_, ?_, ?_, ?_⟩ <;> simp [h1, hstore, hcc, hq]
      | ok queryEmbedding =>
        by_cases h3 : req.filter ≠ "" ∧ env.filterValid = false
        · have hval : searchMemosSemantic env req
              = (SearchResult.err ErrCode.invalidArgument, true) := by
            unfold searchMemosSemantic
            rw [if_neg h1, if_neg (by rw [hstore]; simp), hcc, hq]
            dsimp only
            rw [if_pos h3]
          rw [hval]
          refine ⟨?_, ?_, ?_, ?_⟩ <;> simp [h1, hstore, hcc, hq, h3]
        by_cases h4 : env.candidates = []
        · have hval : searchMemosSemantic env req
              = (SearchResult.ok ⟨[], none⟩, true) := by
            unfold searchMemosSemantic
            rw [if_neg h1, if_neg (by rw [hstore]; simp), hcc, hq]
            dsimp only
            rw [if_neg h3, if_pos h4]
          rw [hval]
          refine ⟨?_, ?_, ?_, ?_⟩ <;> simp [h1, hstore, hcc, hq, h3, h4]
        by_cases h5 : scoreCandidates queryEmbedding env.candidates
            env.embeddingMap = []
        · have hval : searchMemosSemantic env req
              = (SearchResult.ok ⟨[], none⟩, true) := by
            unfold searchMemosSemantic
            rw [if_neg h1, if_neg (by rw [hstore]; simp), hcc, hq]
            dsimp only
            rw [if_neg h3, if_neg h4, if_pos h5]
          rw [hval]
          refine ⟨?_, ?_, ?_, ?_⟩ <;> simp [h1, hstore, hcc, hq, h3, h4, h5]
        cases htok : req.pageToken with
        | malformedTok =>
          have hval : searchMemosSemantic env req
              = (SearchResult.err ErrCode.invalidArgument, true) := by
            unfold searchMemosSemantic
            rw [if_neg h1, if_neg (by rw [hstore]; simp), hcc, hq]
            dsimp only
            rw [if_neg h3, if_neg h4, if_neg h5, htok]
          rw [hval]
          refine ⟨?_, ?_, ?_, ?_⟩ <;> simp [h1, hstore, hcc, hq, h3, h4, h5, htok]
        | emptyTok =>
          cases hp : paginateRanked (rankScoredMemos (scoreCandidates
              queryEmbedding env.candidates env.embeddingMap))
              req.pageSize none with
          | none =>
            have hval : searchMemosSemantic env req
                = (SearchResult.panics, true) := by
              unfold searchMemosSemantic
              rw [if_neg h1, if_neg (by rw [hstore]; simp), hcc, hq]
              dsimp only
              rw [if_neg h3, if_neg h4, if_neg h5, htok]
              dsimp only
              rw [hp]
            rw [hval]
            refine ⟨?_, ?_, ?_, ?_⟩ <;>
              simp [h1, hstore, hcc, hq, h3, h4, h5, htok]
          | some pr =>
            have hval : searchMemosSemantic env req
                = (SearchResult.ok ⟨pr.1.map (fun s => s.memo), pr.2⟩, true) := by
              unfold searchMemosSemantic
              rw [if_neg h1, if_neg (by rw [hstore]; simp), hcc, hq]
              dsimp only
              rw [if_neg h3, if_neg h4, if_neg h5, htok]
              dsimp only
              rw [hp]
            rw [hval]
            refine ⟨?_, ?_, ?_, ?_⟩ <;>
              simp [h1, hstore, hcc, hq, h3, h4, h5, htok]
        | validTok t =>
          cases hp : paginateRanked (rankScoredMemos (scoreCandidates
              queryEmbedding env.candidates env.embeddingMap))
              req.pageSize (some t) with
          | none =>
            have hval : searchMemosSemantic env req
                = (SearchResult.panics, true) := by
              unfold searchMemosSemantic
              rw [if_neg h1, if_neg (by rw [hstore]; simp), hcc, hq]
              dsimp only
              rw [if_neg h3, if_neg h4, if_neg h5, htok]
              dsimp only
              rw [hp]
            rw [hval]
            refine ⟨?_, ?_, ?_, ?_⟩ <;>
              simp [h1, hstore, hcc, hq, h3, h4, h5, htok]
          | some pr =>
            have hval : searchMemosSemantic env req
                = (SearchResult.ok ⟨pr.1.map (fun s => s.memo), pr.2⟩, true) := by
              unfold searchMemosSemantic
              rw [if_neg h1, if_neg (by rw [hstore]; simp), hcc, hq]
              dsimp only
              rw [if_neg h3, if_neg h4, if_neg h5, htok]
              dsimp only
              rw [hp]
            rw [hval]
            refine ⟨?_, ?_, ?_, ?_⟩ <;>
              simp [h1, hstore, hcc, hq, h3, h4, h5, htok]

/-- Closed witness for `search_error_classification` at the
unsupported-backend environment. -/
theorem search_error_classification_witness :
    (searchMemosSemantic
        ⟨false, Except.ok (), Except.ok [], true, [], fun _ => none⟩
        ⟨"q", "", 10, TokenField.malformedTok⟩).2 = false :=
  (search_error_classification
    ⟨false, Except.ok (), Except.ok [], true, [], fun _ => none⟩
    ⟨"q", "", 10, TokenField.malformedTok⟩).2.2.2 rfl

/-- `isRetryableOpenAIStatus` (semantic_embedding_openai.go lines 233-238):
429 (too many requests), 408 (request timeout), or any status ≥ 500. -/
def isRetryableOpenAIStatus (statusCode : Nat) : Bool :=
  if statusCode = 429 || statusCode = 408 then
    true
  else
    decide (statusCode ≥ 500)

/-- The decoded shape of one provider response body as `embedOnce` sees it:
either `json.Unmarshal` fails, or it yields a data array of embeddings plus
an optional error message. -/
inductive EmbedBody
  | malformed
  | decoded (data : List (List ℝ)) (errMsg : Option String)

/-- The outcome of one HTTP exchange: transport failure (with the context
still alive), context cancellation, a body-read failure, or a status code
with a body. -/
inductive AttemptOutcome
  | transportError
  | canceled
  | readError
  | response (statusCode : Nat) (body : EmbedBody)

/-- Error classes surfaced by the embedding client. -/
inductive EmbedError
  | emptyInput
  | requestCanceled
  | callFailed
  | readFailed
  | decodeFailed
  | apiError (msg : String)
  | apiStatus (statusCode : Nat)
  | emptyResponse
  | missingOutcome

/-- `embedOnce` (semantic_embedding_openai.go lines 185-231): the result of
one attempt together with its `retryable` flag.  Transport and read
failures are retryable; cancellation is not; a body that fails to decode is
retryable exactly when the status is; a status ≥ 400 is an API error,
retryable exactly when the status is; an empty data array or empty first
embedding is a non-retryable empty response. -/
def embedOnce : AttemptOutcome → Except EmbedError (List ℝ) × Bool
  | .transportError => (.error .callFailed, true)
  | .canceled => (.error .requestCanceled, false)
  | .readError => (.error .readFailed, true)
  | .response statusCode .malformed =>
    (.error .decodeFailed, isRetryableOpenAIStatus statusCode)
  | .response statusCode (.decoded data errMsg) =>
    if statusCode ≥ 400 then
      match errMsg with
      | some msg =>
        if msg = "" then
          (.error (.apiStatus statusCode), isRetryableOpenAIStatus statusCode)
        else
          (.error (.apiError msg), isRetryableOpenAIStatus statusCode)
      | none =>
        (.error (.apiStatus statusCode), isRetryableOpenAIStatus statusCode)
    else
      match data with
      | [] => (.error .emptyResponse, false)
      | first :: _ =>
        match first with
        | [] => (.error .emptyResponse, false)
        | x :: xs => (.ok (x :: xs), false)

/-- The retry loop of `Embed` (semantic_embedding_openai.go lines 161-179):
each iteration consumes the next per-request outcome; on success return; on
a non-retryable error or once `attempt ≥ maxRetry`, return the error;
otherwise wait `backoff * 2^attempt` and retry.  Returns the result, the
number of HTTP requests issued, and the list of backoff waits performed. -/
def embedLoop (maxRetry backoff : Nat) :
    Nat → List AttemptOutcome → Except EmbedError (List ℝ) × Nat × List Nat
  | _, [] => (.error .missingOutcome, 0, [])
  | attempt, o :: rest =>
    match embedOnce o with
    | (.ok v, _) => (.ok v, 1, [])
    | (.error e, retryable) =>
      if retryable = false ∨ maxRetry ≤ attempt then
        (.error e, 1, [])
      else
        let r := embedLoop maxRetry backoff (attempt + 1) rest
        (r.1, r.2.1 + 1, (backoff * 2 ^ attempt) :: r.2.2)

/-- `Embed` (lines 144-179): reject blank text, then run the retry loop
from attempt 0. -/
def Embed (maxRetry backoff : Nat) (text : String)
    (outcomes : List AttemptOutcome) :
    Except EmbedError (List ℝ) × Nat × List Nat :=
  if trimSpace text = "" then
    (.error .emptyInput, 0, [])
  else
    embedLoop maxRetry backoff 0 outcomes

lemma embedLoop_requests_le (maxRetry backoff : Nat) :
    ∀ (outcomes : List AttemptOutcome) (attempt : Nat),
      (embedLoop maxRetry backoff attempt outcomes).2.1
        ≤ 1 + (maxRetry - attempt) := by
  intro outcomes
  induction outcomes with
  | nil =>
    intro attempt
    simp [embedLoop]
  | cons o rest ih =>
    intro attempt
    unfold embedLoop
    match ho : embedOnce o with
    | (.ok v, b) =>
      dsimp only
      omega
    | (.error e, retryable) =>
      dsimp only
      by_cases hr : retryable = false ∨ maxRetry ≤ attempt
      · rw [if_pos hr]
        dsimp only
        omega
      · rw [if_neg hr]
        dsimp only
        have ha := (not_or.mp hr).2
        have := ih (attempt + 1)
        omega

lemma embedLoop_retry_only (maxRetry backoff : Nat) :
    ∀ (outcomes : List AttemptOutcome) (attempt k : Nat)
      (o : AttemptOutcome),
      k + 1 < (embedLoop maxRetry backoff attempt outcomes).2.1 →
      outcomes.get? k = some o →
      (embedOnce o).2 = true := by
  intro outcomes
  induction outcomes with
  | nil =>
    intro attempt k o hk
    simp [embedLoop] at hk
  | cons head rest ih =>
    intro attempt k o hk hg
    unfold embedLoop at hk
    match ho : embedOnce head with
    | (.ok v, b) =>
      rw [ho] at hk
      dsimp only at hk
      omega
    | (.error e, retryable) =>
      rw [ho] at hk
      dsimp only at hk
      by_cases hr : retryable = false ∨ maxRetry ≤ attempt
      · rw [if_pos hr] at hk
        dsimp only at hk
        omega
      · rw [if_neg hr] at hk
        dsimp only at hk
        cases k with
        | zero =>
          simp only [List.get?_cons_zero, Option.some.injEq] at hg
          rw [← hg, ho]
          push_neg at hr
          simp [hr.1]
        | succ k =>
          simp only [List.get?_cons_succ] at hg
          exact ih (attempt + 1) k o (by omega) hg

lemma embedLoop_waits (maxRetry backoff : Nat) :
    ∀ (outcomes : List AttemptOutcome) (attempt k : Nat),
      k + 1 < (embedLoop maxRetry backoff attempt outcomes).2.1 →
      (embedLoop maxRetry backoff attempt outcomes).2.2.get? k
        = some (backoff * 2 ^ (attempt + k)) := by
  intro outcomes
  induction outcomes with
  | nil =>
    intro attempt k hk
    simp [embedLoop] at hk
  | cons head rest ih =>
    intro attempt k hk
    unfold embedLoop at hk ⊢
    match ho : embedOnce head with
    | (.ok v, b) =>
      rw [ho] at hk
      dsimp only at hk
      omega
    | (.error e, retryable) =>
      rw [ho] at hk
      dsimp only at hk ⊢
      by_cases hr : retryable = false ∨ maxRetry ≤ attempt
      · rw [if_pos hr] at hk
        dsimp only at hk
        omega
      · rw [if_neg hr] at hk ⊢
        dsimp only at hk ⊢
        cases k with
        | zero =>
          simp
        | succ k =>
          simp only [List.get?_cons_succ]
          have hih := ih (attempt + 1) k (by omega)
          rw [hih, show attempt + 1 + k = attempt + (k + 1) from by omega]

/-- C2 counterexample: a malformed response carrying a retryable status
code (HTTP 500) is retried, not failed immediately: with `maxRetry = 2`,
outcomes "500 with undecodable body" then "200 with a good embedding" give
success with two HTTP requests and one backoff wait — refuting "on a 401 or
400 status or a malformed response it fails immediately without
retrying". -/
theorem embed_retry_counterexample :
    embedLoop 2 100 0
        [AttemptOutcome.response 500 EmbedBody.malformed,
         AttemptOutcome.response 200 (EmbedBody.decoded [[(1 : ℝ)]] none)]
      = (Except.ok [(1 : ℝ)], 2, [100]) ∧
    (embedOnce (AttemptOutcome.response 500 EmbedBody.malformed)).1
      = Except.error EmbedError.decodeFailed := by
  constructor
  · rfl
  · rfl

/-- C2 (amended): a failed request is retried only when its status code is
5xx, 429 or 408 (or the failure is a transport/read failure), waiting
`backoff * 2^attempt` before each retry, for at most `maxRetry` additional
attempts; a 401 or 400 status, and a malformed or empty response whose
status is not retryable, fail immediately without retrying.  In particular
500, 500, 200 yields success with exactly three requests, and 401 yields
failure with exactly one request. -/
theorem embed_retry_spec (maxRetry backoff : Nat) (text : String)
    (outcomes : List AttemptOutcome)
    (htext : trimSpace text ≠ "") :
    ((Embed maxRetry backoff text outcomes).2.1 ≤ maxRetry + 1) ∧
    (∀ k (o : AttemptOutcome),
      k + 1 < (Embed maxRetry backoff text outcomes).2.1 →
      outcomes.get? k = some o → (embedOnce o).2 = true) ∧
    (∀ (s : Nat) (b : EmbedBody),
      (embedOnce (AttemptOutcome.response s b)).2 = true →
      isRetryableOpenAIStatus s = true) ∧
    (∀ s : Nat, isRetryableOpenAIStatus s = true ↔
      (s = 429 ∨ s = 408 ∨ 500 ≤ s)) ∧
    (∀ k, k + 1 < (Embed maxRetry backoff text outcomes).2.1 →
      (Embed maxRetry backoff text outcomes).2.2.get? k
        = some (backoff * 2 ^ k)) ∧
    (∀ (s : Nat) (b : EmbedBody) (rest : List AttemptOutcome),
      isRetryableOpenAIStatus s = false →
      (embedLoop maxRetry backoff 0 (AttemptOutcome.response s b :: rest)).2.1
        = 1) ∧
    (Embed 2 backoff "hello"
        [AttemptOutcome.response 500 (EmbedBody.decoded [] none),
         AttemptOutcome.response 500 (EmbedBody.decoded [] none),
         AttemptOutcome.response 200 (EmbedBody.decoded [[(1 : ℝ)]] none)]
      = (Except.ok [(1 : ℝ)], 3, [backoff * 2 ^ 0, backoff * 2 ^ 1])) ∧
    (Embed 2 backoff "hello"
        [AttemptOutcome.response 401 (EmbedBody.decoded [] none)]
      = (Except.error (EmbedError.apiStatus 401), 1, [])) := by
  have hEmbed : Embed maxRetry backoff text outcomes
      = embedLoop maxRetry backoff 0 outcomes := by
    unfold Embed
    rw [if_neg htext]
  refine ⟨?_, ?_, ?_, ?_, ?_, ?_, ?_, ?_⟩
  · rw [hEmbed]
    have := embedLoop_requests_le maxRetry backoff outcomes 0
    omega
  · intro k o hk hg
    rw [hEmbed] at hk
    exact embedLoop_retry_only maxRetry backoff outcomes 0 k o hk hg
  · intro s b hret
    cases b with
    | malformed =>
      unfold embedOnce at hret
      exact hret
    | decoded data errMsg =>
      unfold embedOnce at hret
      dsimp only at hret
      by_cases hs : s ≥ 400
      · rw [if_pos hs] at hret
        cases errMsg with
        | none => exact hret
        | some msg =>
          dsimp only at hret
          by_cases hm : msg = ""
          · rw [if_pos hm] at hret
            exact hret
          · rw [if_neg hm] at hret
            exact hret
      · rw [if_neg hs] at hret
        cases data with
        | nil => exact absurd hret (by simp)
        | cons first drest =>
          cases first with
          | nil => exact absurd hret (by simp)
          | cons x xs => exact absurd hret (by simp)
  · intro s
    unfold isRetryableOpenAIStatus
    by_cases h29 : s = 429 || s = 408
    · rw [if_pos h29]
      simp only [Bool.or_eq_true, decide_eq_true_eq] at h29
      constructor
      · intro _
        tauto
      · intro _
        rfl
    · rw [if_neg h29]
      simp only [Bool.or_eq_true, decide_eq_true_eq, not_or] at h29
      simp [h29.1, h29.2]
  · intro k hk
    rw [hEmbed] at hk ⊢
    have := embedLoop_waits maxRetry backoff outcomes 0 k hk
    simpa using this
  · intro s b rest hs
    unfold embedLoop
    cases b with
    | malformed =>
      unfold embedOnce
      dsimp only
      rw [hs]
      simp
    | decoded data errMsg =>
      unfold embedOnce
      dsimp only
      by_cases hge : s ≥ 400
      · rw [if_pos hge]
        cases errMsg with
        | none =>
          rw [hs]
          simp
        | some msg =>
          dsimp only
          by_cases hm : msg = ""
          · rw [if_pos hm, hs]
            simp
          · rw [if_neg hm, hs]
            simp
      · rw [if_neg hge]
        cases data with
        | nil => simp
        | cons first drest =>
          cases first with
          | nil => simp
          | cons x xs => simp
  · simp [Embed, embedLoop, embedOnce, trimSpace, isSpaceChar,
      isRetryableOpenAIStatus]
  · simp [Embed, embedLoop, embedOnce, trimSpace, isSpaceChar,
      isRetryableOpenAIStatus]

/-- Closed witness for `embed_retry_spec` with the default retry budget and
backoff. -/
theorem embed_retry_spec_witness :
    Embed 2 100 "hello"
        [AttemptOutcome.response 500 (EmbedBody.decoded [] none),
         AttemptOutcome.response 500 (EmbedBody.decoded [] none),
         AttemptOutcome.response 200 (EmbedBody.decoded [[(1 : ℝ)]] none)]
      = (Except.ok [(1 : ℝ)], 3, [100 * 2 ^ 0, 100 * 2 ^ 1]) :=
  (embed_retry_spec 2 100 "hello"
    [AttemptOutcome.response 500 (EmbedBody.decoded [] none),
     AttemptOutcome.response 500 (EmbedBody.decoded [] none),
     AttemptOutcome.response 200 (EmbedBody.decoded [[(1 : ℝ)]] none)]
    (by decide)).2.2.2.2.2.2.1

/-- A stored `memo_embedding` row (store.MemoEmbedding plus the
`updated_ts` column written by the upsert). -/
structure MemoEmbeddingRow where
  memoId : Int
  model : String
  dimension : Int
  embedding : List ℝ
  contentHash : String
  updatedTs : Int

/-- One hex digit, as in Go's hex.EncodeToString alphabet `0-9a-f`. -/
def hexDigit (n : Nat) : Char :=
  if n < 10 then Char.ofNat (48 + n) else Char.ofNat (87 + n)

/-- Model of `hex.EncodeToString`: two hex digits per byte. -/
def hexEncode (bytes : List Nat) : String :=
  ⟨(bytes.map fun b => [hexDigit (b / 16), hexDigit (b % 16)]).flatten⟩

lemma hexEncode_ne_empty {bytes : List Nat} (h : bytes ≠ []) :
    hexEncode bytes ≠ "" := by
  cases bytes with
  | nil => exact absurd rfl h
  | cons b t =>
    intro he
    have hdata := congrArg String.data he
    simp [hexEncode] at hdata

/-- `GetMemoEmbeddingContentHash` (store/memo_embedding.go lines 28-42):
the stored row's hash, or the empty string with no error when no row
exists (`sql.ErrNoRows` is mapped to `("", nil)`). -/
def GetMemoEmbeddingContentHash (stored : Option MemoEmbeddingRow) :
    Except String String :=
  match stored with
  | none => .ok ""
  | some row => .ok row.contentHash

/-- Observable side effects of one refresh: embedding-provider calls and
store upserts performed. -/
structure RefreshEffects where
  embedCalls : Nat
  upserts : Nat
deriving DecidableEq, Repr

/-- `refreshMemoEmbedding` (memo_semantic_service.go lines 254-283)
composed with `UpsertMemoEmbedding` (store/memo_embedding.go): resolve the
client, hash the content with SHA-256 (the `digest` parameter) in hex,
read the stored hash, return early on a hash match, otherwise call the
embedding client and upsert the row (the upsert rejects an empty vector
and stamps `updated_ts` with the current time). -/
def refreshMemoEmbedding (clientConfig : Except String Unit) (model : String)
    (digest : String → List Nat) (embedResult : Except String (List ℝ))
    (now : Int) (memoID : Int) (content : String)
    (stored : Option MemoEmbeddingRow) :
    Except String Unit × Option MemoEmbeddingRow × RefreshEffects :=
  match clientConfig with
  | .error e => (.error e, stored, ⟨0, 0⟩)
  | .ok _ =>
    match GetMemoEmbeddingContentHash stored with
    | .error e => (.error e, stored, ⟨0, 0⟩)
    | .ok existingHash =>
      if existingHash = hexEncode (digest content) then
        (.ok (), stored, ⟨0, 0⟩)
      else
        match embedResult with
        | .error e => (.error e, stored, ⟨1, 0⟩)
        | .ok embedding =>
          match embedding with
          | [] => (.error "embedding vector cannot be empty", stored, ⟨1, 0⟩)
          | x :: xs =>
            (.ok (), some ⟨memoID, model, (x :: xs : List ℝ).length, x :: xs,
              hexEncode (digest content), now⟩, ⟨1, 1⟩)

/-- C5: when the content hashes to exactly the stored `contentHash`, a
refresh is a complete no-op: it succeeds, makes no embedding call, performs
no upsert, and leaves the stored row (vector, model, dimension,
contentHash, updatedAt) unchanged. -/
theorem refresh_dedupe_noop (model : String) (digest : String → List Nat)
    (embedResult : Except String (List ℝ)) (now memoID : Int)
    (content : String) (row : MemoEmbeddingRow)
    (hmatch : row.contentHash = hexEncode (digest content)) :
    refreshMemoEmbedding (Except.ok ()) model digest embedResult now memoID
        content (some row)
      = (Except.ok (), some row, ⟨0, 0⟩) := by
  unfold refreshMemoEmbedding GetMemoEmbeddingContentHash
  dsimp only
  rw [if_pos hmatch]

/-- Closed witness for `refresh_dedupe_noop` at a concrete stored row whose
hash matches the scheduled content. -/
theorem refresh_dedupe_noop_witness :
    refreshMemoEmbedding (Except.ok ()) "m" (fun _ => [0])
        (Except.ok [(1 : ℝ)]) 7 1 "text"
        (some ⟨1, "m", 1, [(1 : ℝ)], hexEncode [0], 3⟩)
      = (Except.ok (), some ⟨1, "m", 1, [(1 : ℝ)], hexEncode [0], 3⟩,
          ⟨0, 0⟩) :=
  refresh_dedupe_noop "m" (fun _ => [0]) (Except.ok [(1 : ℝ)]) 7 1 "text"
    ⟨1, "m", 1, [(1 : ℝ)], hexEncode [0], 3⟩ rfl

/-- C10: a missing `NoteEmbedding` row yields the empty content hash with
no error, and a refresh of a never-embedded note (any content: a SHA-256
digest is 32 bytes, so its hex encoding is never empty) never takes the
dedupe short-circuit — it always issues the embedding call. -/
theorem missing_row_hash_and_refresh (model : String)
    (digest : String → List Nat) (embedResult : Except String (List ℝ))
    (now memoID : Int) (content : String)
    (hdigest : (digest content).length = 32) :
    GetMemoEmbeddingContentHash none = Except.ok "" ∧
    (refreshMemoEmbedding (Except.ok ()) model digest embedResult now memoID
        content none).2.2.embedCalls = 1 := by
  refine ⟨rfl, ?_⟩
  unfold refreshMemoEmbedding GetMemoEmbeddingContentHash
  dsimp only
  rw [if_neg ?hne]
  case hne =>
    intro he
    have hbytes : digest content ≠ [] := by
      intro hb
      rw [hb] at hdigest
      simp at hdigest
    exact hexEncode_ne_empty hbytes he.symm
  match embedResult with
  | .error e => rfl
  | .ok [] => rfl
  | .ok (x :: xs) => rfl

/-- Closed witness for `missing_row_hash_and_refresh` at a 32-byte zero
digest. -/
theorem missing_row_hash_and_refresh_witness :
    GetMemoEmbeddingContentHash none = Except.ok "" ∧
    (refreshMemoEmbedding (Except.ok ()) "m" (fun _ => List.replicate 32 0)
        (Except.ok [(1 : ℝ)]) 7 1 "note" none).2.2.embedCalls = 1 :=
  missing_row_hash_and_refresh "m" (fun _ => List.replicate 32 0)
    (Except.ok [(1 : ℝ)]) 7 1 "note" (by simp)

/-- Persisted reindex-progress fields of `InstanceAISetting`
(semantic_reindex.go). -/
structure ReindexSetting where
  running : Bool
  total : Int
  processed : Int
  failed : Int
  startedTs : Int
  updatedTs : Int
  model : String
deriving DecidableEq, Repr

/-- Service state for the reindex orchestrator: the mutex-guarded in-memory
running flag plus the persisted progress record. -/
structure ReindexServiceState where
  semanticReindexRunning : Bool
  persisted : ReindexSetting
deriving DecidableEq, Repr

/-- `startSemanticReindexTask` (semantic_reindex.go lines 23-41):
precondition checks (storage capability, resolvable client), then the
mutex-guarded check-and-set of `semanticReindexRunning`; a failed start
mutates nothing and launches nothing; a successful start flips the flag
and launches the background task. -/
def startSemanticReindexTask (storageEnabled : Bool)
    (clientConfig : Except String Unit) (st : ReindexServiceState) :
    Except ErrCode Unit × ReindexServiceState × Bool :=
  if storageEnabled = false then
    (.error .failedPrecondition, st, false)
  else
    match clientConfig with
    | .error _ => (.error .failedPrecondition, st, false)
    | .ok _ =>
      if st.semanticReindexRunning then
        (.error .alreadyExists, st, false)
      else
        (.ok (), ⟨true, st.persisted⟩, true)

/-- C6: starting a reindex while one is running fails with already-exists
and leaves the running job's state — the in-memory flag and every persisted
counter (total, processed, failed, startedAt, model) — unchanged, and
launches no task. -/
theorem reindex_start_while_running (clientConfig : Except String Unit)
    (st : ReindexServiceState)
    (hcc : clientConfig = Except.ok ())
    (hrun : st.semanticReindexRunning = true) :
    startSemanticReindexTask true clientConfig st
      = (Except.error ErrCode.alreadyExists, st, false) := by
  unfold startSemanticReindexTask
  rw [if_neg (by simp), hcc]
  dsimp only
  rw [if_pos hrun]

/-- Closed witness for `reindex_start_while_running` at a concrete
in-progress state. -/
theorem reindex_start_while_running_witness :
    startSemanticReindexTask true (Except.ok ())
        ⟨true, ⟨true, 10, 4, 1, 100, 105, "m"⟩⟩
      = (Except.error ErrCode.alreadyExists,
          ⟨true, ⟨true, 10, 4, 1, 100, 105, "m"⟩⟩, false) :=
  reindex_start_while_running (Except.ok ())
    ⟨true, ⟨true, 10, 4, 1, 100, 105, "m"⟩⟩ rfl rfl

/-- The event alphabet of one background refresh unit.  `slotAcquired` and
`slotReleased` are the concurrency-limiter events (the
`embeddingSemaphore` field of `APIV1Service`, documented as "limits
concurrent embedding refresh jobs to avoid unbounded goroutines"); whether
they ever occur on the `ScheduleRefresh` path is exactly the question the
claim asks. -/
inductive RefreshEvent
  | dedupeChecked
  | slotAcquired
  | embedCalled
  | upsertDone
  | slotReleased
deriving DecidableEq, Repr

/-- The event trace of one background refresh unit as the source launches
it: `scheduleMemoEmbeddingSync` (memo_semantic_service.go lines 221-238)
spawns a goroutine that runs `refreshMemoEmbedding` (lines 254-283), which
hashes and compares (`dedupeChecked`), returns on a hash match, and
otherwise calls `embeddingClient.Embed` directly (`embedCalled`) and
upserts on success (`upsertDone`) — with no semaphore acquisition or
release anywhere on this path. -/
def refreshMemoEmbeddingTrace (dedupeHit embedOk : Bool) : List RefreshEvent :=
  if dedupeHit then
    [.dedupeChecked]
  else
    [.dedupeChecked, .embedCalled] ++ (if embedOk then [.upsertDone] else [])

/-- A limiter slot is held before position `k` of the trace: strictly more
acquisitions than releases precede it. -/
def slotHeldAt (trace : List RefreshEvent) (k : Nat) : Prop :=
  (trace.take k).count RefreshEvent.slotReleased
    < (trace.take k).count RefreshEvent.slotAcquired

/-- C9: the code violates the claim.  A refresh unit launched by
`ScheduleRefresh` never touches the concurrency limiter: its trace contains
no `slotAcquired` event at all (for any dedupe/embed outcome), yet on a
dedupe miss it calls the embedding client — at position 1 of the trace —
while holding no limiter slot. -/
theorem refresh_embed_without_limiter :
    (∀ dedupeHit embedOk : Bool,
      (refreshMemoEmbeddingTrace dedupeHit embedOk).count
          RefreshEvent.slotAcquired = 0) ∧
    (refreshMemoEmbeddingTrace false true).get? 1
      = some RefreshEvent.embedCalled ∧
    ¬ slotHeldAt (refreshMemoEmbeddingTrace false true) 1 := by
  refine ⟨?_, rfl, ?_⟩
  · intro dedupeHit embedOk
    cases dedupeHit <;> cases embedOk <;> rfl
  · intro h
    simp [slotHeldAt, refreshMemoEmbeddingTrace] at h

end MemosSemantic
